import Mathlib

/-!
Verification of the tuige asset & metadata cache (src/request.rs).

The development shallowly embeds the cache component: the LRU hot tier,
the durable cold tier, the get-or-compute populate protocol
(`Cache::cache`), the producers, and the emote ingestion fold.  Fallible
Rust code is modelled with an `Outcome` type distinguishing a propagated
error (`?` on an `eyre::Result`) from a process panic (`unwrap`).
External collaborators (the `rkyv` codec, the `image` crate, the disk
store, the HTTP transport) are modelled as explicit pure functions or as
explicit environment data, as noted on each definition.
-/

namespace Tuige

/-- A byte string, modelled as a list of naturals. -/
abbrev Bytes := List Nat

/-- Result of running a piece of fallible Rust code: a normal value, an
error propagated with the question-mark operator, or a panic raised by
an unwrap. -/
inductive Outcome (α : Type) where
  | ok : α → Outcome α
  | err : Outcome α
  | panicked : Outcome α
deriving DecidableEq

/-- A decoded bitmap, kept abstract: only the bytes it was decoded from
are tracked.  Models image::DynamicImage. -/
structure Image where
  bytes : Bytes
deriving DecidableEq

/-- Magic prefix of the WebP container, used by the model decoder. -/
def webpMagic : Bytes := [82, 73, 70, 70]

/-- Modelled from the spec: decoding WebP bytes into a bitmap
(image::load_from_memory_with_format with ImageFormat::WebP); the
library is external, so the model accepts exactly the byte strings
carrying the container magic and fails on all others. -/
def decodeWebp (data : Bytes) : Option Image :=
  if data.take 4 = webpMagic then some ⟨data.drop 4⟩ else none

/-- Modelled from the spec: decoding bytes of any supported format
(image::load_from_memory); the model fails exactly on empty input. -/
def image_load_from_memory (data : Bytes) : Option Image :=
  if data = [] then none else some ⟨data⟩

/-- Modelled from the spec: re-encoding a bitmap into canonical WebP
bytes (DynamicImage::write_to with ImageFormat::WebP). -/
def imageEncodeWebp (img : Image) : Option Bytes :=
  some (webpMagic ++ img.bytes)

/-- Runtime emote: a name and a decoded bitmap (struct Emote). -/
structure Emote where
  name : String
  image : Image
deriving DecidableEq

/-- Wire-form emote: a name and re-encoded image bytes (struct RawEmote). -/
structure RawEmote where
  name : String
  data : Bytes
deriving DecidableEq

/-- Runtime cache value (enum Value). -/
inductive Value where
  | ClientId : String → Value
  | UserId : String → Value
  | EmoteSet : List Emote → Value
deriving DecidableEq

/-- Wire-form cache value (enum RawCacheValue). -/
inductive RawCacheValue where
  | ClientId : String → RawCacheValue
  | UserId : String → RawCacheValue
  | EmoteSet : List RawEmote → RawCacheValue
deriving DecidableEq

/-- Materialization of one persisted emote, modelling
impl From of RawEmote for Emote: the WebP decode there is unwrapped, so
a decode failure (`none` here) is a panic at the call site. -/
def Emote.ofRaw (r : RawEmote) : Option Emote :=
  (decodeWebp r.data).map fun img => ⟨r.name, img⟩

/-- Materialization of a wire value into a runtime value, modelling
impl From of RawCacheValue for Value; `none` means the conversion
panics (a malformed emote image). -/
def valueOfRaw : RawCacheValue → Option Value
  | .ClientId v => some (.ClientId v)
  | .UserId v => some (.UserId v)
  | .EmoteSet es => (es.mapM Emote.ofRaw).map Value.EmoteSet

/-! ### The persisted binary codec

Modelled from the spec: the binary codec for RawCacheValue is derived by
the rkyv crate (to_bytes / from_bytes), generated code outside this
repository; the model is a stable tagged length-prefixed encoding as
described in the spec's persisted-binary-format section. -/

/-- Length-prefixed string encoding. -/
def encodeString (s : String) : Bytes :=
  s.data.length :: s.data.map Char.toNat

/-- Length-prefixed byte-string encoding. -/
def encodeBytes (b : Bytes) : Bytes :=
  b.length :: b

/-- Decode a length-prefixed string, returning it and the remainder. -/
def decodeString : Bytes → Option (String × Bytes)
  | [] => none
  | n :: rest =>
    if n ≤ rest.length then
      some (String.mk ((rest.take n).map Char.ofNat), rest.drop n)
    else none

/-- Decode a length-prefixed byte string, returning it and the remainder. -/
def decodeBytes : Bytes → Option (Bytes × Bytes)
  | [] => none
  | n :: rest =>
    if n ≤ rest.length then some (rest.take n, rest.drop n) else none

/-- Encoding of one wire-form emote. -/
def encodeRawEmote (e : RawEmote) : Bytes :=
  encodeString e.name ++ encodeBytes e.data

/-- Decode one wire-form emote, returning it and the remainder. -/
def decodeRawEmote (l : Bytes) : Option (RawEmote × Bytes) :=
  (decodeString l).bind fun p =>
    (decodeBytes p.2).map fun q => (⟨p.1, q.1⟩, q.2)

/-- Decode a counted sequence of wire-form emotes. -/
def decodeEmotes : Nat → Bytes → Option (List RawEmote × Bytes)
  | 0, l => some ([], l)
  | k + 1, l =>
    (decodeRawEmote l).bind fun p =>
      (decodeEmotes k p.2).map fun q => (p.1 :: q.1, q.2)

/-- Serialize a wire-form cache value (models rkyv::to_bytes as used by
Cache::write_disk_cache). -/
def rkyvToBytes : RawCacheValue → Bytes
  | .ClientId s => 0 :: encodeString s
  | .UserId s => 1 :: encodeString s
  | .EmoteSet es => 2 :: es.length :: (es.map encodeRawEmote).flatten

/-- Deserialize a wire-form cache value (models rkyv::from_bytes with
check_bytes validation as used by Cache::read_cache). -/
def rkyvFromBytes : Bytes → Option RawCacheValue
  | 0 :: rest =>
    (decodeString rest).bind fun p =>
      if p.2 = [] then some (.ClientId p.1) else none
  | 1 :: rest =>
    (decodeString rest).bind fun p =>
      if p.2 = [] then some (.UserId p.1) else none
  | 2 :: n :: rest =>
    (decodeEmotes n rest).bind fun p =>
      if p.2 = [] then some (.EmoteSet p.1) else none
  | _ => none

/-! ### The hot tier: the LRU table

Models lru::LruCache as used through the Cache struct: a recency list,
most recently used first, with a fixed capacity. -/

/-- The hot-tier table: capacity and a recency-ordered entry list
(most recently used first).  Models lru::LruCache of String and Value. -/
structure LRU where
  cap : Nat
  entries : List (String × Value)
deriving DecidableEq

/-- Remove every entry with the given key. -/
def LRU.remove (l : LRU) (k : String) : List (String × Value) :=
  l.entries.filter fun e => !(e.1 == k)

/-- Models LruCache::contains: membership test, no recency update. -/
def LRU.contains (l : LRU) (k : String) : Bool :=
  l.entries.any fun e => e.1 == k

/-- Models LruCache::get: on a hit the entry is promoted to most
recently used. -/
def LRU.get (l : LRU) (k : String) : Option Value × LRU :=
  match l.entries.find? (fun e => e.1 == k) with
  | none => (none, l)
  | some e => (some e.2, ⟨l.cap, e :: l.remove k⟩)

/-- Models LruCache::put: insert as most recently used; when the key is
absent and the table is at capacity, the least recently used entry
(the last of the recency list) is evicted first. -/
def LRU.put (l : LRU) (k : String) (v : Value) : LRU :=
  if l.contains k then ⟨l.cap, (k, v) :: l.remove k⟩
  else if l.cap ≤ l.entries.length then ⟨l.cap, (k, v) :: l.entries.dropLast⟩
  else ⟨l.cap, (k, v) :: l.entries⟩

/-- One hot-tier operation, as issued by the populate protocol. -/
inductive LruOp where
  | lookup : String → LruOp
  | insert : String → Value → LruOp

/-- Apply one hot-tier operation. -/
def LRU.apply (l : LRU) : LruOp → LRU
  | .lookup k => (l.get k).2
  | .insert k v => l.put k v

/-- Apply a sequence of hot-tier operations. -/
def LRU.applyAll (l : LRU) (ops : List LruOp) : LRU :=
  ops.foldl LRU.apply l

/-! ### The cold tier and the cache state -/

/-- The durable byte store (the cacache directory), modelled as an
association list plus an environment flag saying whether durable writes
currently fail with an I/O error. -/
structure Disk where
  entries : List (String × Bytes)
  writeFails : Bool
deriving DecidableEq

/-- Models cacache::read: the stored bytes, or a miss. -/
def Disk.read (d : Disk) (k : String) : Option Bytes :=
  (d.entries.find? (fun e => e.1 == k)).map fun e => e.2

/-- Models cacache::write: fails with an I/O error when the environment
says so, otherwise replaces the stored bytes. -/
def Disk.write (d : Disk) (k : String) (b : Bytes) : Outcome Disk :=
  if d.writeFails then .err
  else .ok ⟨(k, b) :: d.entries.filter (fun e => !(e.1 == k)), d.writeFails⟩

/-- The cache object (struct Cache): the cold-tier store and the
hot-tier table.  The HTTP client is not state the protocol reads or
writes; producers are passed in as their outcomes instead. -/
structure Cache where
  disk : Disk
  lru : LRU
deriving DecidableEq

/-- Models Cache::new: an empty hot tier with capacity 100 over the
given disk store. -/
def Cache.new (d : Disk) : Cache :=
  ⟨d, ⟨100, []⟩⟩

/-- Models Cache::read_cache: hot lookup first; then, if the disk is
enabled, read and decode the cold tier, materialize and insert on
success.  A disk read error or an rkyv decode failure falls through to
a miss; a panicking materialization (malformed image bytes) aborts. -/
def read_cache (c : Cache) (use_disk_cache : Bool) (key : String) :
    Outcome (Option Value) × Cache :=
  if c.lru.contains key then
    let g := c.lru.get key
    (.ok g.1, { c with lru := g.2 })
  else if use_disk_cache then
    match c.disk.read key with
    | some bytes =>
      match rkyvFromBytes bytes with
      | some raw =>
        match valueOfRaw raw with
        | some v =>
          let l1 := c.lru.put key v
          let g := l1.get key
          (.ok g.1, { c with lru := g.2 })
        | none => (.panicked, c)
      | none => (.ok none, c)
    | none => (.ok none, c)
  else (.ok none, c)

/-- Models Cache::write_disk_cache: serialize and write durably. -/
def write_disk_cache (c : Cache) (key : String) (val : RawCacheValue) :
    Outcome Cache :=
  match c.disk.write key (rkyvToBytes val) with
  | .ok d => .ok { c with disk := d }
  | .err => .err
  | .panicked => .panicked

/-- Models Cache::write_cache: if the disk is enabled, first write the
cold tier, propagating its failure with the question-mark operator
before any hot-tier change; then materialize (a panic on malformed
image bytes) and insert into the hot tier. -/
def write_cache (c : Cache) (use_disk_cache : Bool) (key : String)
    (val : RawCacheValue) : Outcome Value × Cache :=
  match (if use_disk_cache then write_disk_cache c key val else .ok c) with
  | .err => (.err, c)
  | .panicked => (.panicked, c)
  | .ok c1 =>
    match valueOfRaw val with
    | none => (.panicked, c1)
    | some v =>
      let l1 := c1.lru.put key v
      let g := l1.get key
      match g.1 with
      | some v1 => (.ok v1, { c1 with lru := g.2 })
      | none => (.panicked, { c1 with lru := g.2 })

/-- Result of one populate call: the outcome, the cache state after the
call, and how many times the producer was invoked. -/
structure PopResult where
  res : Outcome Value
  state : Cache
  producerCalls : Nat
deriving DecidableEq

/-- Models Cache::cache, the populate protocol: hot/cold lookup via
read_cache (an Err from it falls through to the producer, as the
if-let-Ok pattern does); on a miss the producer runs exactly once and
its value is written back via write_cache.  The producers of this
program never touch the cache table or the disk, so a producer is
embedded as its outcome. -/
def Cache.cache (c : Cache) (use_disk_cache : Bool) (key : String)
    (producer : Outcome RawCacheValue) : PopResult :=
  match read_cache c use_disk_cache key with
  | (.ok (some v), c1) => ⟨.ok v, c1, 0⟩
  | (.panicked, c1) => ⟨.panicked, c1, 0⟩
  | (.ok none, c1) | (.err, c1) =>
    match producer with
    | .ok raw =>
      let w := write_cache c1 use_disk_cache key raw
      ⟨w.1, w.2, 1⟩
    | .err => ⟨.err, c1, 1⟩
    | .panicked => ⟨.panicked, c1, 1⟩

/-! ### Producers -/

/-- One user record of the helix users response
(response::twitch::UserData). -/
structure UserData where
  id : String
deriving DecidableEq

/-- The helix users response (response::twitch::User). -/
structure UserResp where
  data : List UserData
deriving DecidableEq

/-- The cache key used by Cache::get_user_id: the request URL itself. -/
def userIdKey (username : String) : String :=
  "https://api.twitch.tv/helix/users?login=" ++ username

/-- The producer inside Cache::get_user_id, as a function of the HTTP
round trip's outcome: request building, transport and JSON decoding
errors are propagated, but an empty data list hits
resp.data.first().unwrap(), a panic. -/
def userIdProducer (resp : Outcome UserResp) : Outcome RawCacheValue :=
  match resp with
  | .ok u =>
    match u.data.head? with
    | some first => .ok (.UserId first.id)
    | none => .panicked
  | .err => .err
  | .panicked => .panicked

/-- Models Cache::get_user_id: populate with the disk enabled under the
URL key, with the user-id producer. -/
def Cache.get_user_id (c : Cache) (username : String)
    (resp : Outcome UserResp) : PopResult :=
  c.cache true (userIdKey username) (userIdProducer resp)

/-- Models RawEmote::from_image: re-encode a bitmap to WebP bytes; an
encoder error is propagated as an error, not a panic. -/
def RawEmote.from_image (name : String) (img : Image) : Option RawEmote :=
  (imageEncodeWebp img).map fun d => ⟨name, d⟩

/-- Models Emote::transcode_from_bytes: the image decode is unwrapped
(panic on failure), the re-encode error is propagated. -/
def transcode_from_bytes (name : String) (bytes : Bytes) :
    Outcome (RawEmote × Emote) :=
  match image_load_from_memory bytes with
  | none => .panicked
  | some image =>
    match RawEmote.from_image name image with
    | some raw => .ok (raw, ⟨name, image⟩)
    | none => .err

/-- Per-item environment of one spawned ingestion task: whether the
catalog entry has a url_1x image, and the network outcome of the
download. -/
structure EmoteFetch where
  name : String
  hasUrl : Bool
  download : Outcome Bytes
deriving DecidableEq

/-- One spawned ingestion task (the tokio::spawn body inside
Cache::get_global_emotes): the missing-url unwrap, the request-build
unwrap and the transport unwraps all panic, which the join handle
surfaces as an error outcome; otherwise the bytes are transcoded. -/
def emoteTask (f : EmoteFetch) : Outcome (RawEmote × Emote) :=
  if f.hasUrl then
    match f.download with
    | .ok bytes => transcode_from_bytes f.name bytes
    | .err => .panicked
    | .panicked => .panicked
  else .panicked

/-- The fan-in fold of Cache::get_global_emotes: successful pairs are
accumulated, every failed or panicked task is dropped silently.  The
input list is the task outcomes in completion order. -/
def ingestFold (results : List (Outcome (RawEmote × Emote))) :
    List Emote × List RawEmote :=
  results.foldl
    (fun s r =>
      match r with
      | .ok p => (s.1 ++ [p.2], s.2 ++ [p.1])
      | .err => s
      | .panicked => s)
    ([], [])

/-- The successful pair of a task outcome, if any. -/
def okPair : Outcome (RawEmote × Emote) → Option (RawEmote × Emote)
  | .ok p => some p
  | .err => none
  | .panicked => none

/-- The producer inside Cache::get_global_emotes after the catalog
fetch, as a function of the per-task outcomes: it wraps the successful
subset into an EmoteSet and always succeeds. -/
def globalEmotesProducer (results : List (Outcome (RawEmote × Emote))) :
    Outcome RawCacheValue :=
  .ok (.EmoteSet (ingestFold results).2)

/-! ### The bounded fan-out of the ingestion pipeline

Models stream::iter(..).map(tokio::spawn ..).buffer_unordered(5): tasks
are spawned on demand, only while fewer than the width are in flight. -/

/-- The width passed to buffer_unordered in Cache::get_global_emotes. -/
def bufferWidth : Nat := 5

/-- Scheduler state of one ingestion run: items not yet spawned, tasks
spawned and not yet finished, tasks finished. -/
structure PipeState where
  pending : Nat
  inflight : Nat
  done : Nat
deriving DecidableEq

/-- One scheduler step: buffer_unordered pulls (and thereby spawns) the
next task only while fewer than bufferWidth are in flight; any in-flight
task may finish. -/
inductive PipeStep : PipeState → PipeState → Prop where
  | spawn : ∀ p i d, 0 < p → i < bufferWidth →
      PipeStep ⟨p, i, d⟩ ⟨p - 1, i + 1, d⟩
  | finish : ∀ p i d, 0 < i →
      PipeStep ⟨p, i, d⟩ ⟨p, i - 1, d + 1⟩

/-- States reachable during an ingestion run over n items. -/
inductive PipeReach (n : Nat) : PipeState → Prop where
  | init : PipeReach n ⟨n, 0, 0⟩
  | step : ∀ s t, PipeReach n s → PipeStep s t → PipeReach n t

/-! ### Key derivation (Cache::get_client_id) -/

/-- The token-validation endpoint of Cache::get_client_id. -/
def validateUrl : String := "https://id.twitch.tv/oauth2/validate"

/-- The derived cache key of Cache::get_client_id as a function of the
hex-displayed blake3 digest of the access token; the digest computation
is the external blake3 crate, and the code builds the key from the
digest and the endpoint only — the raw token is not an input. -/
def get_client_id_key (hashedToken : String) : String :=
  validateUrl ++ "/" ++ hashedToken

/-- Prefix test on character lists. -/
def listPrefix : List Char → List Char → Bool
  | [], _ => true
  | _ :: _, [] => false
  | a :: as, b :: bs => a == b && listPrefix as bs

/-- Substring test: the needle occurs contiguously in the haystack. -/
def strContains (hay needle : String) : Bool :=
  (List.range (hay.data.length + 1)).any fun i =>
    listPrefix needle.data (hay.data.drop i)

/-! ### Concrete states used by counterexamples and witnesses -/

/-- A disk whose durable writes currently fail with an I/O error. -/
def failingDisk : Disk := ⟨[], true⟩

/-- Persisted bytes of an emote set whose single emote carries bytes
that are not a WebP image. -/
def badEmoteBytes : Bytes := rkyvToBytes (.EmoteSet [⟨"e", [0, 1]⟩])

/-- A fresh cache whose cold tier holds the malformed-image entry. -/
def corruptImageCache : Cache := Cache.new ⟨[("K", badEmoteBytes)], false⟩

/-- A fresh cache whose cold tier holds bytes that are not a valid
serialized RawCacheValue. -/
def garbageCache : Cache := Cache.new ⟨[("G", [9])], false⟩

/-! ### Codec lemmas -/

theorem map_ofNat_toNat (l : List Char) :
    (l.map Char.toNat).map Char.ofNat = l := by
  induction l with
  | nil => rfl
  | cons c t ih => simp [List.map_cons, Char.ofNat_toNat, ih]

theorem decodeString_encodeString (s : String) (r : Bytes) :
    decodeString (encodeString s ++ r) = some (s, r) := by
  have h : encodeString s ++ r
      = s.data.length :: (s.data.map Char.toNat ++ r) := by
    simp [encodeString]
  rw [h]
  have hlen : s.data.length ≤ (s.data.map Char.toNat ++ r).length := by
    simp
  rw [decodeString, if_pos hlen, List.take_left' (by simp),
    List.drop_left' (by simp), map_ofNat_toNat]

theorem decodeBytes_encodeBytes (b r : Bytes) :
    decodeBytes (encodeBytes b ++ r) = some (b, r) := by
  have h : encodeBytes b ++ r = b.length :: (b ++ r) := by
    simp [encodeBytes]
  rw [h]
  have hlen : b.length ≤ (b ++ r).length := by simp
  rw [decodeBytes, if_pos hlen, List.take_left' rfl, List.drop_left' rfl]

theorem decodeRawEmote_encodeRawEmote (e : RawEmote) (r : Bytes) :
    decodeRawEmote (encodeRawEmote e ++ r) = some (e, r) := by
  rw [encodeRawEmote, List.append_assoc, decodeRawEmote,
    decodeString_encodeString]
  simp [decodeBytes_encodeBytes]

theorem decodeEmotes_encode (es : List RawEmote) (r : Bytes) :
    decodeEmotes es.length ((es.map encodeRawEmote).flatten ++ r)
      = some (es, r) := by
  induction es generalizing r with
  | nil => simp [decodeEmotes]
  | cons e t ih =>
    simp only [List.map_cons, List.flatten_cons, List.length_cons,
      List.append_assoc, decodeEmotes, decodeRawEmote_encodeRawEmote,
      Option.some_bind, ih, Option.map_some]
    rfl

/-- C5: decoding the bytes produced by encoding any PersistedValue
(RawCacheValue) of any variant, including EmoteSet with any number of
entries, yields the original value. -/
theorem persisted_roundtrip (v : RawCacheValue) :
    rkyvFromBytes (rkyvToBytes v) = some v := by
  cases v with
  | ClientId s =>
    have h := decodeString_encodeString s []
    rw [List.append_nil] at h
    simp [rkyvToBytes, rkyvFromBytes, h]
  | UserId s =>
    have h := decodeString_encodeString s []
    rw [List.append_nil] at h
    simp [rkyvToBytes, rkyvFromBytes, h]
  | EmoteSet es =>
    have h := decodeEmotes_encode es []
    rw [List.append_nil] at h
    simp [rkyvToBytes, rkyvFromBytes, h]

/-! ### Ingestion fold lemmas -/

theorem okPair_ok (p : RawEmote × Emote) : okPair (.ok p) = some p := rfl

theorem okPair_err : okPair .err = none := rfl

theorem okPair_panicked : okPair .panicked = none := rfl

theorem ingestFold_go (results : List (Outcome (RawEmote × Emote))) :
    ∀ a b,
      results.foldl
        (fun s r =>
          match r with
          | .ok p => (s.1 ++ [p.2], s.2 ++ [p.1])
          | .err => s
          | .panicked => s) (a, b)
      = (a ++ results.filterMap (fun r => (okPair r).map Prod.snd),
         b ++ results.filterMap (fun r => (okPair r).map Prod.fst)) := by
  induction results with
  | nil => intro a b; simp
  | cons r t ih =>
    intro a b
    cases r with
    | ok p => simp [okPair, List.filterMap_cons, ih, List.append_assoc]
    | err => simp [okPair, List.filterMap_cons, ih]
    | panicked => simp [okPair, List.filterMap_cons, ih]

theorem ingestFold_eq (results : List (Outcome (RawEmote × Emote))) :
    ingestFold results
      = (results.filterMap (fun r => (okPair r).map Prod.snd),
         results.filterMap (fun r => (okPair r).map Prod.fst)) := by
  have h := ingestFold_go results [] []
  simpa [ingestFold] using h

theorem length_filterMap_okPair {α : Type} (f : RawEmote × Emote → α)
    (results : List (Outcome (RawEmote × Emote))) :
    (results.filterMap (fun r => (okPair r).map f)).length
      = results.length - results.countP (fun r => (okPair r).isNone) := by
  induction results with
  | nil => rfl
  | cons r t ih =>
    have hle := List.countP_le_length
      (p := fun r => (okPair r).isNone) (l := t)
    cases r with
    | ok p =>
      simp [List.filterMap_cons, List.countP_cons, okPair_ok, ih]
      omega
    | err =>
      simp [List.filterMap_cons, List.countP_cons, okPair_err, ih]
    | panicked =>
      simp [List.filterMap_cons, List.countP_cons, okPair_panicked, ih]

/-- C7: over any completion-ordered list of N per-item task outcomes of
which M failed (at any stage: the failures appear as err or panicked
outcomes), the producer call itself succeeds, returning exactly the
successful pairs, and both output lists have length N - M. -/
theorem ingestion_partial_failure
    (results : List (Outcome (RawEmote × Emote))) :
    globalEmotesProducer results
      = .ok (.EmoteSet (results.filterMap (fun r => (okPair r).map Prod.fst))) ∧
    (ingestFold results).1
      = results.filterMap (fun r => (okPair r).map Prod.snd) ∧
    (ingestFold results).1.length
      = results.length - results.countP (fun r => (okPair r).isNone) ∧
    (ingestFold results).2.length
      = results.length - results.countP (fun r => (okPair r).isNone) := by
  refine ⟨?_, ?_, ?_, ?_⟩
  · rw [globalEmotesProducer, ingestFold_eq]
  · rw [ingestFold_eq]
  · rw [ingestFold_eq]
    exact length_filterMap_okPair Prod.snd results
  · rw [ingestFold_eq]
    exact length_filterMap_okPair Prod.fst results

/-- C9: in every state reachable during an ingestion run over any
number of items, at most bufferWidth = 5 spawned tasks are in flight. -/
theorem bounded_fanout (n : Nat) (s : PipeState) (h : PipeReach n s) :
    s.inflight ≤ bufferWidth := by
  induction h with
  | init => exact Nat.zero_le _
  | step s t hs hst ih =>
    cases hst with
    | spawn p i d hp hi => exact hi
    | finish p i d hi => exact Nat.le_trans (Nat.sub_le i 1) ih

/-- Witness for bounded_fanout: a run over 12 items, after one spawn
step, has 1 task in flight, which is at most the width. -/
theorem bounded_fanout_witness :
    (⟨11, 1, 0⟩ : PipeState).inflight ≤ bufferWidth :=
  bounded_fanout 12 ⟨11, 1, 0⟩
    (PipeReach.step _ _ PipeReach.init
      (PipeStep.spawn 12 0 0 (by decide) (by decide)))

/-! ### Hot-tier lemmas -/

theorem LRU.cap_apply (l : LRU) (op : LruOp) : (l.apply op).cap = l.cap := by
  cases op with
  | lookup k =>
    unfold LRU.apply LRU.get
    cases h : l.entries.find? (fun e => e.1 == k) <;> simp [h]
  | insert k v =>
    unfold LRU.apply LRU.put
    by_cases h1 : l.contains k
    · simp [h1]
    · by_cases h2 : l.cap ≤ l.entries.length <;> simp [h1, h2]

theorem LRU.length_remove_lt (l : LRU) (k : String)
    (h : l.contains k = true) :
    (l.remove k).length < l.entries.length := by
  obtain ⟨e, he, hk⟩ := List.any_eq_true.1 h
  unfold LRU.remove
  refine List.length_filter_lt_length_iff_exists.2 ⟨e, he, ?_⟩
  simp_all

theorem LRU.length_apply_le (l : LRU) (op : LruOp)
    (hcap : 0 < l.cap) (hlen : l.entries.length ≤ l.cap) :
    (l.apply op).entries.length ≤ l.cap := by
  cases op with
  | lookup k =>
    unfold LRU.apply LRU.get
    cases h : l.entries.find? (fun e => e.1 == k) with
    | none => simp only [h]; exact hlen
    | some e =>
      have hmem := List.mem_of_find?_eq_some h
      have hk : (e.1 == k) = true := by simpa using List.find?_some h
      have hc : l.contains k = true := by
        unfold LRU.contains
        exact List.any_eq_true.2 ⟨e, hmem, hk⟩
      have hlt := LRU.length_remove_lt l k hc
      simp only [h, List.length_cons]
      omega
  | insert k v =>
    simp only [LRU.apply, LRU.put]
    by_cases h1 : l.contains k = true
    · have hlt := LRU.length_remove_lt l k h1
      rw [if_pos h1]
      simp only [List.length_cons]
      omega
    · rw [if_neg h1]
      by_cases h2 : l.cap ≤ l.entries.length
      · rw [if_pos h2]
        have hd := List.length_dropLast l.entries
        simp only [List.length_cons, hd]
        omega
      · rw [if_neg h2]
        simp only [List.length_cons]
        omega

theorem LRU.length_applyAll_le :
    ∀ (ops : List LruOp) (l : LRU), 0 < l.cap →
      l.entries.length ≤ l.cap → (l.applyAll ops).entries.length ≤ l.cap
  | [], _, _, hlen => hlen
  | op :: t, l, hcap, hlen => by
    have hc := LRU.cap_apply l op
    have h1 := LRU.length_apply_le l op hcap hlen
    have h3 := LRU.length_applyAll_le t (l.apply op)
      (by rw [hc]; exact hcap) (by rw [hc]; exact h1)
    rw [hc] at h3
    simpa [LRU.applyAll, List.foldl_cons] using h3

/-- C8: the hot tier of a fresh cache holds at most 100 entries after
any sequence of lookups and inserts; an insert of an absent key into a
table at capacity evicts exactly the least-recently-used (last) entry;
and both insert and lookup move the touched key to the
most-recently-used (front) position. -/
theorem hot_tier_bounded :
    (∀ (d : Disk) (ops : List LruOp),
      ((Cache.new d).lru.applyAll ops).entries.length ≤ 100) ∧
    (∀ (l : LRU) (k : String) (v : Value),
      l.entries.length = l.cap → l.contains k = false →
      (l.put k v).entries = (k, v) :: l.entries.dropLast) ∧
    (∀ (l : LRU) (k : String) (v : Value),
      (l.put k v).entries.head? = some (k, v)) ∧
    (∀ (l : LRU) (k : String) (e : String × Value),
      l.entries.find? (fun x => x.1 == k) = some e →
      ((l.get k).2.entries.head? = some e)) := by
  refine ⟨?_, ?_, ?_, ?_⟩
  · intro d ops
    exact LRU.length_applyAll_le ops (Cache.new d).lru
      (by norm_num [Cache.new]) (by simp [Cache.new])
  · intro l k v hlen hcon
    simp [LRU.put, hcon, hlen.ge]
  · intro l k v
    unfold LRU.put
    by_cases h1 : l.contains k
    · simp [h1]
    · by_cases h2 : l.cap ≤ l.entries.length <;> simp [h1, h2]
  · intro l k e h
    simp [LRU.get, h]

/-- Witness for hot_tier_bounded: one insert into a fresh cache keeps
the table within bound; inserting an absent key into a full
two-entry table of capacity two evicts the last entry; an insert and a
promoting lookup each leave the touched key in front. -/
theorem hot_tier_bounded_witness :
    (((Cache.new ⟨[], false⟩).lru.applyAll
        [LruOp.insert "a" (.ClientId "x")]).entries.length ≤ 100) ∧
    ((LRU.put ⟨2, [("b", .ClientId "y"), ("c", .ClientId "z")]⟩ "a"
        (.ClientId "x")).entries
      = ("a", Value.ClientId "x")
          :: ([("b", Value.ClientId "y"), ("c", Value.ClientId "z")]
                : List (String × Value)).dropLast) ∧
    ((LRU.put ⟨2, []⟩ "a" (.ClientId "x")).entries.head?
      = some ("a", Value.ClientId "x")) ∧
    ((LRU.get ⟨2, [("a", Value.ClientId "x")]⟩ "a").2.entries.head?
      = some ("a", Value.ClientId "x")) :=
  ⟨hot_tier_bounded.1 ⟨[], false⟩ [LruOp.insert "a" (.ClientId "x")],
   hot_tier_bounded.2.1 ⟨2, [("b", .ClientId "y"), ("c", .ClientId "z")]⟩
     "a" (.ClientId "x") (by decide) (by decide),
   hot_tier_bounded.2.2.1 ⟨2, []⟩ "a" (.ClientId "x"),
   hot_tier_bounded.2.2.2 ⟨2, [("a", Value.ClientId "x")]⟩ "a"
     ("a", Value.ClientId "x") (by decide)⟩

/-! ### Populate-protocol lemmas -/

theorem read_cache_not_contains_no_disk (c : Cache) (k : String)
    (h : c.lru.contains k = false) :
    read_cache c false k = (.ok none, c) := by
  simp [read_cache, h]

theorem LRU.put_cap (l : LRU) (k : String) (v : Value) :
    (l.put k v).cap = l.cap := by
  simp only [LRU.put]
  by_cases h1 : l.contains k = true
  · rw [if_pos h1]
  · rw [if_neg h1]
    by_cases h2 : l.cap ≤ l.entries.length
    · rw [if_pos h2]
    · rw [if_neg h2]

theorem LRU.put_entries_cons (l : LRU) (k : String) (v : Value) :
    ∃ t, (l.put k v).entries = (k, v) :: t := by
  simp only [LRU.put]
  by_cases h1 : l.contains k = true
  · rw [if_pos h1]; exact ⟨_, rfl⟩
  · rw [if_neg h1]
    by_cases h2 : l.cap ≤ l.entries.length
    · rw [if_pos h2]; exact ⟨_, rfl⟩
    · rw [if_neg h2]; exact ⟨_, rfl⟩

theorem LRU.get_of_entries_cons (l : LRU) (k : String) (v : Value)
    (t : List (String × Value)) (h : l.entries = (k, v) :: t) :
    l.get k = (some v, ⟨l.cap, (k, v) :: l.remove k⟩) := by
  unfold LRU.get
  rw [h, List.find?_cons_of_pos _ (by simp)]

theorem LRU.contains_of_entries_cons (l : LRU) (k : String) (v : Value)
    (t : List (String × Value)) (h : l.entries = (k, v) :: t) :
    l.contains k = true := by
  unfold LRU.contains
  rw [h]
  simp

/-- A populate call on a cache whose hot tier currently has the key in
front is a hot hit: the stored value is returned and the producer is
not invoked. -/
theorem Cache.cache_hit (c : Cache) (ud : Bool) (k : String)
    (p : Outcome RawCacheValue) (v : Value) (t : List (String × Value))
    (h : c.lru.entries = (k, v) :: t) :
    (c.cache ud k p).res = .ok v ∧ (c.cache ud k p).producerCalls = 0 := by
  have hc := LRU.contains_of_entries_cons c.lru k v t h
  have hg := LRU.get_of_entries_cons c.lru k v t h
  simp [Cache.cache, read_cache, hc, hg]

/-- With the disk disabled, a write-back materializes the value and
inserts it at the front of the hot tier. -/
theorem write_cache_no_disk (c : Cache) (k : String)
    (raw : RawCacheValue) (v : Value) (hmat : valueOfRaw raw = some v) :
    ∃ t, write_cache c false k raw
      = (.ok v, { c with lru := ⟨c.lru.cap, (k, v) :: t⟩ }) := by
  obtain ⟨t, ht⟩ := LRU.put_entries_cons c.lru k v
  have hcap := LRU.put_cap c.lru k v
  have hg := LRU.get_of_entries_cons (c.lru.put k v) k v t ht
  refine ⟨(c.lru.put k v).remove k, ?_⟩
  rw [hcap] at hg
  simp [write_cache, hmat, hg, hcap]

/-- C1: populating a previously-unseen key with the disk disabled
invokes the producer exactly once and returns the materialization of
its result; an immediately repeated populate call for the same key
returns the same value without invoking the producer again. -/
theorem populate_unseen_key (c : Cache) (k : String)
    (raw : RawCacheValue) (v : Value)
    (hmiss : c.lru.contains k = false)
    (hmat : valueOfRaw raw = some v) :
    (c.cache false k (.ok raw)).producerCalls = 1 ∧
    (c.cache false k (.ok raw)).res = .ok v ∧
    (((c.cache false k (.ok raw)).state).cache false k
        (.ok raw)).producerCalls = 0 ∧
    (((c.cache false k (.ok raw)).state).cache false k
        (.ok raw)).res = .ok v := by
  have hr := read_cache_not_contains_no_disk c k hmiss
  obtain ⟨t, hw⟩ := write_cache_no_disk c k raw v hmat
  have hfst : c.cache false k (.ok raw)
      = ⟨.ok v, { c with lru := ⟨c.lru.cap, (k, v) :: t⟩ }, 1⟩ := by
    simp [Cache.cache, hr, hw]
  have hhit := Cache.cache_hit
    { c with lru := ⟨c.lru.cap, (k, v) :: t⟩ } false k (.ok raw) v t rfl
  refine ⟨by rw [hfst], by rw [hfst], ?_, ?_⟩
  · rw [hfst]
    exact hhit.2
  · rw [hfst]
    exact hhit.1

/-- Witness for populate_unseen_key: the spec scenario, key A with a
ClientId abc123 producer against a fresh cache. -/
theorem populate_unseen_key_witness :
    ((Cache.new ⟨[], false⟩).cache false "A"
        (.ok (.ClientId "abc123"))).producerCalls = 1 ∧
    ((Cache.new ⟨[], false⟩).cache false "A"
        (.ok (.ClientId "abc123"))).res = .ok (.ClientId "abc123") ∧
    ((((Cache.new ⟨[], false⟩).cache false "A"
        (.ok (.ClientId "abc123"))).state).cache false "A"
        (.ok (.ClientId "abc123"))).producerCalls = 0 ∧
    ((((Cache.new ⟨[], false⟩).cache false "A"
        (.ok (.ClientId "abc123"))).state).cache false "A"
        (.ok (.ClientId "abc123"))).res = .ok (.ClientId "abc123") :=
  populate_unseen_key (Cache.new ⟨[], false⟩) "A" (.ClientId "abc123")
    (.ClientId "abc123") rfl rfl

/-- C2 counterexample: against a fresh cache whose durable store
rejects writes, a disk-enabled populate with a successful producer
returns the write error and the hot tier stays empty: the failed
durable write does abort the call and the hot-tier insert does not
happen. -/
theorem write_failure_aborts_counterexample :
    ((Cache.new failingDisk).cache true "A"
        (.ok (.ClientId "abc"))).res = .err ∧
    ((Cache.new failingDisk).cache true "A"
        (.ok (.ClientId "abc"))).state.lru.entries = [] :=
  ⟨rfl, rfl⟩

/-- C2 amended: when the producer succeeds but the durable write
fails, the populate call aborts with that error: the hot tier is not
touched, the produced value is not returned, and the cache state is
unchanged. -/
theorem write_failure_aborts (c : Cache) (k : String)
    (raw : RawCacheValue)
    (hmiss : read_cache c true k = (.ok none, c))
    (hfail : c.disk.writeFails = true) :
    c.cache true k (.ok raw) = ⟨.err, c, 1⟩ := by
  unfold Cache.cache
  rw [hmiss]
  simp [write_cache, write_disk_cache, Disk.write, hfail]

/-- Witness for write_failure_aborts at a fresh cache over the failing
disk. -/
theorem write_failure_aborts_witness :
    (Cache.new failingDisk).cache true "B" (.ok (.UserId "u"))
      = ⟨.err, Cache.new failingDisk, 1⟩ :=
  write_failure_aborts (Cache.new failingDisk) "B" (.UserId "u") rfl rfl

/-- C3 counterexample: when the cold tier holds persisted bytes whose
tagged union decodes but whose emote image bytes are malformed, the
populate call panics instead of treating the failure as a miss: the
producer is never invoked. -/
theorem image_decode_miss_counterexample :
    (corruptImageCache.cache true "K" (.ok (.ClientId "p"))).res
      = .panicked ∧
    (corruptImageCache.cache true "K"
        (.ok (.ClientId "p"))).producerCalls = 0 :=
  ⟨rfl, rfl⟩

/-- C3 amended: a failure to decode the persisted tagged-union bytes
read from the cold tier is a soft miss (the read raises no error and
the call falls through to the producer, whatever its outcome); but
malformed image bytes inside successfully decoded persisted bytes make
the call panic with the producer never invoked. -/
theorem decode_failure_paths (c : Cache) (k : String) (b : Bytes)
    (hmiss : c.lru.contains k = false)
    (hdisk : c.disk.read k = some b) :
    (rkyvFromBytes b = none →
      read_cache c true k = (.ok none, c) ∧
      ∀ p : Outcome RawCacheValue, (c.cache true k p).producerCalls = 1) ∧
    (∀ rv, rkyvFromBytes b = some rv → valueOfRaw rv = none →
      ∀ p : Outcome RawCacheValue,
        c.cache true k p = ⟨.panicked, c, 0⟩) := by
  constructor
  · intro hdec
    have hr : read_cache c true k = (.ok none, c) := by
      simp [read_cache, hmiss, hdisk, hdec]
    refine ⟨hr, ?_⟩
    intro p
    unfold Cache.cache
    rw [hr]
    cases p <;> rfl
  · intro rv hdec hmat p
    have hr : read_cache c true k = (.panicked, c) := by
      simp [read_cache, hmiss, hdisk, hdec, hmat]
    unfold Cache.cache
    rw [hr]

/-- Witness for decode_failure_paths: garbage persisted bytes fall
through to one producer invocation; decodable persisted bytes with a
malformed emote image panic with zero producer invocations. -/
theorem decode_failure_paths_witness :
    ((garbageCache.cache true "G"
        (.ok (.ClientId "p"))).producerCalls = 1) ∧
    (corruptImageCache.cache true "K" .err
      = ⟨.panicked, corruptImageCache, 0⟩) :=
  ⟨((decode_failure_paths garbageCache "G" [9] rfl rfl).1 rfl).2
      (.ok (.ClientId "p")),
   (decode_failure_paths corruptImageCache "K" badEmoteBytes rfl rfl).2
      (.EmoteSet [⟨"e", [0, 1]⟩]) rfl rfl .err⟩

/-- C4: when the producer fails, the populate call aborts with that
error after exactly one producer invocation and the cache state — hot
tier and cold tier alike — is unchanged. -/
theorem producer_failure_aborts (c : Cache) (ud : Bool) (k : String)
    (hmiss : read_cache c ud k = (.ok none, c)) :
    c.cache ud k .err = ⟨.err, c, 1⟩ := by
  unfold Cache.cache
  rw [hmiss]

/-- Witness for producer_failure_aborts at a fresh cache with the disk
enabled. -/
theorem producer_failure_aborts_witness :
    (Cache.new ⟨[], false⟩).cache true "C" .err
      = ⟨.err, Cache.new ⟨[], false⟩, 1⟩ :=
  producer_failure_aborts (Cache.new ⟨[], false⟩) true "C" rfl

/-- C10: a user lookup whose HTTP response deserializes to an empty
data list panics on the unwrap of the first element: the populate call
terminates abnormally instead of surfacing an error outcome. -/
theorem empty_user_lookup_panics (c : Cache) (username : String)
    (hmiss : read_cache c true (userIdKey username) = (.ok none, c)) :
    (c.get_user_id username (.ok ⟨[]⟩)).res = .panicked ∧
    (c.get_user_id username (.ok ⟨[]⟩)).res ≠ .err := by
  have hp : userIdProducer (.ok ⟨[]⟩) = .panicked := rfl
  have h : c.get_user_id username (.ok ⟨[]⟩) = ⟨.panicked, c, 1⟩ := by
    unfold Cache.get_user_id
    rw [hp]
    unfold Cache.cache
    rw [hmiss]
  rw [h]
  exact ⟨rfl, by simp⟩

/-- Witness for empty_user_lookup_panics: a fresh cache and an unknown
username. -/
theorem empty_user_lookup_panics_witness :
    ((Cache.new ⟨[], false⟩).get_user_id "ghost" (.ok ⟨[]⟩)).res
      = .panicked ∧
    ((Cache.new ⟨[], false⟩).get_user_id "ghost" (.ok ⟨[]⟩)).res
      ≠ .err :=
  empty_user_lookup_panics (Cache.new ⟨[], false⟩) "ghost" rfl

/-! ### Key-derivation lemmas -/

theorem listPrefix_append (n x y : List Char)
    (h : listPrefix n x = true) : listPrefix n (x ++ y) = true := by
  induction n generalizing x with
  | nil => rfl
  | cons a as ih =>
    cases x with
    | nil => exact absurd h (by simp [listPrefix])
    | cons b bs =>
      simp only [List.cons_append, listPrefix, Bool.and_eq_true] at h ⊢
      exact ⟨h.1, ih bs h.2⟩

theorem strContains_append (s r n : String)
    (h : strContains s n = true) : strContains (s ++ r) n = true := by
  unfold strContains at h ⊢
  obtain ⟨i, hi, hp⟩ := List.any_eq_true.1 h
  have hilt : i < s.data.length + 1 := List.mem_range.1 hi
  refine List.any_eq_true.2 ⟨i, ?_, ?_⟩
  · refine List.mem_range.2 ?_
    rw [String.data_append, List.length_append]
    omega
  · rw [String.data_append, List.drop_append_of_le_length (by omega)]
    exact listPrefix_append _ _ _ hp

/-- C6 counterexample: the secrets id and xyz differ, yet whatever hex
digest blake3 assigns to id (an arbitrary one here; the amended
theorem's second part holds for every digest), the derived key
contains the raw secret id as a substring, because the endpoint text
embedded in every derived key already contains it. -/
theorem key_privacy_counterexample :
    ("id" : String) ≠ "xyz" ∧
    strContains (get_client_id_key "aaaa") "id" = true :=
  ⟨by decide, by decide⟩

/-- C6 amended: the derived key of the identity-validation lookup is
built from the endpoint and the hex digest of the secret only — the
raw secret is not an input — so two secrets with distinct digests get
distinct keys; unconditional substring-freedom, however, fails: every
string occurring in the endpoint text, such as the secret id, occurs
in every derived key. -/
theorem key_privacy_amended (d1 d2 : String) (hdiff : d1 ≠ d2) :
    get_client_id_key d1 ≠ get_client_id_key d2 ∧
    ∀ s : String, strContains validateUrl s = true →
      strContains (get_client_id_key d1) s = true := by
  constructor
  · intro h
    apply hdiff
    have h2 := congrArg String.data h
    simp only [get_client_id_key, String.data_append] at h2
    exact String.ext (List.append_cancel_left h2)
  · intro s hs
    unfold get_client_id_key
    exact strContains_append _ _ _ (strContains_append _ _ _ hs)

/-- Witness for key_privacy_amended: two concrete distinct digests
give distinct keys, and the secret id occurs in the derived key. -/
theorem key_privacy_amended_witness :
    get_client_id_key "aa" ≠ get_client_id_key "bb" ∧
    strContains (get_client_id_key "aa") "id" = true :=
  ⟨(key_privacy_amended "aa" "bb" (by decide)).1,
   (key_privacy_amended "aa" "bb" (by decide)).2 "id" (by decide)⟩

end Tuige
